import Mathlib

/-!
Verification of the turn-aware streaming relay in src/Backend/Server/server.py
(repository travelbuddy).  The definitions below are a shallow embedding of the
server code: byte strings are modelled as List Nat, the websocket and the
upstream duplex stream are modelled as ordered lists of events, and the two
relay loops are modelled as pure folds over those lists.  External effects
(the MP3 encoder subprocess or pydub export, and the upstream send operation)
are modelled as oracle parameters, since their behaviour is outside the
repository.
-/

namespace TravelBuddy

/- ===== string constants used by the server ===== -/

def audioPcmMime : String := "audio/pcm"

def imageJpegMime : String := "image/jpeg"

def wavFormat : String := "wav"

def setupKey : String := "setup"

def audioModality : String := "AUDIO"

def aoedeVoice : String := "Aoede"

def systemRole : String := "system"

/-- The system instruction text passed to LiveConnectConfig in
gemini_session_handler (server.py lines 65-79), fixed by the server. -/
def nativeFlowInstruction : String :=
  "You are NativeFlow, a professional live translator and language assistant.

IMPORTANT: Always respond with clear, natural speech.

**Your Translation Process:**
1. **Listen & Analyze**: Carefully listen to what the user says
2. **Identify Languages**: Determine the source language and intended target language
3. **Provide Translation**: Give accurate, natural translations
4. **Be Helpful**: Offer context or cultural notes when helpful

**Guidelines:**
- Speak clearly and at a conversational pace
- If unsure about the language, ask for clarification
- For complex phrases, provide both literal and contextual translations
- Be friendly and professional in your responses"

/- ===== audio container codec (create_wav_header, convert_pcm_to_mp3) ===== -/

/-- Little-endian byte encoding of a natural number, mirroring the Python
expression n.to_bytes(len, 'little') for values that fit in len bytes. -/
def toBytesLE (len n : Nat) : List Nat :=
  (List.range len).map fun i => n / 256 ^ i % 256

/-- Little-endian decoding of a byte list, used to read fields back out of a
produced header. -/
def fromBytesLE (bs : List Nat) : Nat :=
  bs.foldr (fun b acc => b + 256 * acc) 0

/-- Embedding of create_wav_header (server.py lines 543-572): a 44-byte
RIFF/WAVE header followed by the PCM payload verbatim.  The four-character
tags RIFF, WAVE, fmt(space) and data are written as their ASCII byte values. -/
def create_wav_header (pcm : List Nat) (sampleRate : Nat) (channels : Nat := 1)
    (bitsPerSample : Nat := 16) : List Nat :=
  let byteRate := sampleRate * channels * bitsPerSample / 8
  let blockAlign := channels * bitsPerSample / 8
  let dataSize := pcm.length
  let fileSize := 36 + dataSize
  [0x52, 0x49, 0x46, 0x46] ++ toBytesLE 4 fileSize ++
  [0x57, 0x41, 0x56, 0x45] ++
  [0x66, 0x6D, 0x74, 0x20] ++ toBytesLE 4 16 ++ toBytesLE 2 1 ++
  toBytesLE 2 channels ++ toBytesLE 4 sampleRate ++ toBytesLE 4 byteRate ++
  toBytesLE 2 blockAlign ++ toBytesLE 2 bitsPerSample ++
  [0x64, 0x61, 0x74, 0x61] ++ toBytesLE 4 dataSize ++ pcm

/-- Result of one invocation of the external MP3 encoder (the pydub export or
the ffmpeg subprocess in convert_pcm_to_mp3): the encoder may raise an
exception, fail with a nonzero exit status, or produce output bytes.  The
encoder itself is an external collaborator, so it is a parameter of the
embedding. -/
inductive Enc where
  | raises
  | fails
  | ok (bytes : List Nat)
deriving DecidableEq

/-- Duration in milliseconds that pydub reports for a 16-bit mono PCM buffer
(frame count is byte length divided by 2).  Modelled from pydub semantics;
only used on the pydub branch of convert_pcm_to_mp3. -/
def segmentMs (pcmLen sampleRate : Nat) : Nat :=
  pcmLen / 2 * 1000 / sampleRate

/-- Embedding of convert_pcm_to_mp3 (server.py lines 475-540).  havePydub
selects between the pydub branch and the ffmpeg branch; encode is the
external encoder.  All failures, including an encoder exception (caught by
the enclosing try/except in the source), yield none. -/
def convert_pcm_to_mp3 (havePydub : Bool) (encode : List Nat → Enc)
    (pcm : List Nat) (sampleRate : Nat) : Option (List Nat) :=
  if pcm.length < 1000 then none
  else if havePydub then
    if segmentMs pcm.length sampleRate < 100 then none
    else
      match encode pcm with
      | Enc.raises => none
      | Enc.fails => none
      | Enc.ok mp3 => if mp3.length < 500 then none else some mp3
  else
    match encode pcm with
    | Enc.raises => none
    | Enc.fails => none
    | Enc.ok mp3 => if mp3.length < 500 then none else some mp3

/- ===== outbound relay (receive_from_gemini) ===== -/

/-- One part of an upstream model turn: the optional text and the optional
inline audio bytes, mirroring part.text and part.inline_data.data in
receive_from_gemini. -/
structure Part where
  text : Option String
  inlineData : Option (List Nat)
deriving DecidableEq

/-- response.server_content: the optional model turn (a list of parts) and
the turn_complete flag. -/
structure ServerContent where
  modelTurn : Option (List Part)
  turnComplete : Bool
deriving DecidableEq

/-- One upstream response event as consumed by receive_from_gemini; a
response with no server_content is skipped by the loop. -/
structure Response where
  serverContent : Option ServerContent
deriving DecidableEq

/-- A message sent to the client websocket by the outbound relay.  The base64
transport framing of audio payloads is elided: audio carries the payload
bytes and the optional format tag that the source attaches only on the WAV
fallback. -/
inductive ClientMsg where
  | audioStart
  | text (s : String)
  | audio (payload : List Nat) (format : Option String)
  | turnComplete
deriving DecidableEq

/-- The mutable state of receive_from_gemini: the audio_start_sent flag, the
accumulated current_text_response and accumulated_audio_this_turn. -/
structure RelayState where
  audioStartSent : Bool
  currentText : String
  accumulated : List Nat
deriving DecidableEq

/-- The state at the start of the receive loop, and again after every
completed turn: flag cleared, text empty, buffer empty. -/
def initState : RelayState := ⟨false, "", []⟩

/-- Whether a part counts as an audio part for the audio_start check:
part.inline_data is not None. -/
def partHasData (p : Part) : Bool := p.inlineData.isSome

/-- Processing of a single part inside the for loop over model_turn.parts:
a part with text is forwarded as a text message (and appended to the text
accumulator); otherwise a part with inline data is appended to the audio
buffer; the elif in the source means a part carrying both is handled as text
only. -/
def stepPart (st : RelayState) (p : Part) : RelayState × List ClientMsg :=
  match p.text with
  | some t => ({ st with currentText := st.currentText ++ t }, [ClientMsg.text t])
  | none =>
    match p.inlineData with
    | some d => ({ st with accumulated := st.accumulated ++ d }, [])
    | none => (st, [])

/-- The for loop over the parts of one model turn. -/
def foldParts (st : RelayState) : List Part → RelayState × List ClientMsg
  | [] => (st, [])
  | p :: ps =>
    let s := stepPart st p
    let r := foldParts s.1 ps
    (r.1, s.2 ++ r.2)

/-- Handling of one model turn: first the audio_start signal if this turn has
not sent it yet and the parts list contains at least one audio part, then the
per-part loop. -/
def processParts (st : RelayState) (parts : List Part) : RelayState × List ClientMsg :=
  let audioParts := parts.filter partHasData
  if st.audioStartSent = false ∧ audioParts.isEmpty = false then
    let r := foldParts { st with audioStartSent := true } parts
    (r.1, ClientMsg.audioStart :: r.2)
  else
    foldParts st parts

/-- The messages produced while draining a completed turn with buffer buf:
if the buffer is nonempty and at least 4800 bytes, the MP3 conversion result
is sent, or on conversion failure the WAV fallback tagged with format wav;
a smaller buffer produces no audio message. -/
def drainMsgs (havePydub : Bool) (encode : List Nat → Enc) (buf : List Nat) :
    List ClientMsg :=
  if buf ≠ [] ∧ 4800 ≤ buf.length then
    match convert_pcm_to_mp3 havePydub encode buf 24000 with
    | some mp3 => [ClientMsg.audio mp3 none]
    | none => [ClientMsg.audio (create_wav_header buf 24000 1 16) (some wavFormat)]
  else []

/-- The turn_complete branch of the receive loop: drain the accumulated
buffer, send turn_complete unconditionally, and reset the per-turn state. -/
def completeTurn (havePydub : Bool) (encode : List Nat → Enc) (st : RelayState) :
    RelayState × List ClientMsg :=
  (initState, drainMsgs havePydub encode st.accumulated ++ [ClientMsg.turnComplete])

/-- Processing of one upstream response by receive_from_gemini: skip when
server_content is None, otherwise handle the model turn parts and then check
turn_complete. -/
def processResponse (havePydub : Bool) (encode : List Nat → Enc)
    (st : RelayState) (r : Response) : RelayState × List ClientMsg :=
  match r.serverContent with
  | none => (st, [])
  | some sc =>
    let pm :=
      match sc.modelTurn with
      | some parts => processParts st parts
      | none => (st, [])
    if sc.turnComplete then
      let cm := completeTurn havePydub encode pm.1
      (cm.1, pm.2 ++ cm.2)
    else pm

/-- The receive loop folded over a finite list of upstream responses.  The
source restarts session.receive() after each completed turn; the continued
event stream is modelled as the remainder of the list. -/
def runReceive (havePydub : Bool) (encode : List Nat → Enc)
    (st : RelayState) : List Response → RelayState × List ClientMsg
  | [] => (st, [])
  | r :: rs =>
    let p := processResponse havePydub encode st r
    let q := runReceive havePydub encode p.1 rs
    (q.1, p.2 ++ q.2)

/-- The client-observable message sequence for an upstream event sequence,
starting from the initial relay state. -/
def turnMsgs (havePydub : Bool) (encode : List Nat → Enc)
    (rs : List Response) : List ClientMsg :=
  (runReceive havePydub encode initState rs).2

/- ===== observation functions on responses and messages ===== -/

/-- Whether a response carries the turn_complete flag. -/
def respComplete (r : Response) : Bool :=
  match r.serverContent with
  | some sc => sc.turnComplete
  | none => false

/-- The parts of the model turn of a response (empty when server_content or
model_turn is absent). -/
def respParts (r : Response) : List Part :=
  match r.serverContent with
  | some sc => sc.modelTurn.getD []
  | none => []

/-- Whether a response contains at least one audio part. -/
def respHasAudio (r : Response) : Bool :=
  !((respParts r).filter partHasData).isEmpty

/-- The texts of the parts of a list, in arrival order. -/
def partTexts : List Part → List String
  | [] => []
  | p :: ps =>
    match p.text with
    | some t => t :: partTexts ps
    | none => partTexts ps

/-- The audio bytes a single part contributes to the turn buffer: nothing
when the part carries text (the elif), otherwise its inline data. -/
def partAudio (p : Part) : List Nat :=
  match p.text with
  | some _ => []
  | none => p.inlineData.getD []

/-- The audio bytes a list of parts contributes to the turn buffer. -/
def partsAudio : List Part → List Nat
  | [] => []
  | p :: ps => partAudio p ++ partsAudio ps

/-- The texts of one response, in arrival order. -/
def respTexts (r : Response) : List String := partTexts (respParts r)

/-- The audio bytes one response contributes to the turn buffer. -/
def respAudio (r : Response) : List Nat := partsAudio (respParts r)

/-- The texts of an event sequence, in arrival order. -/
def turnTexts : List Response → List String
  | [] => []
  | r :: rs => respTexts r ++ turnTexts rs

/-- The audio buffer accumulated over an event sequence. -/
def turnAudio : List Response → List Nat
  | [] => []
  | r :: rs => respAudio r ++ turnAudio rs

/-- Whether an event sequence contains at least one audio part. -/
def turnHasAudio : List Response → Bool
  | [] => false
  | r :: rs => respHasAudio r || turnHasAudio rs

/-- Message classifier: audio_start. -/
def isStart : ClientMsg → Bool
  | ClientMsg.audioStart => true
  | _ => false

/-- Message classifier: audio payload message. -/
def isAudioMsg : ClientMsg → Bool
  | ClientMsg.audio _ _ => true
  | _ => false

/-- Message classifier: turn_complete. -/
def isTC : ClientMsg → Bool
  | ClientMsg.turnComplete => true
  | _ => false

/-- The text carried by a message, when it is a text message. -/
def msgText : ClientMsg → Option String
  | ClientMsg.text t => some t
  | _ => none

/-- The texts of a message sequence, in order. -/
def textsOf (ms : List ClientMsg) : List String := ms.filterMap msgText

/-- Number of audio_start messages in a sequence. -/
def countStart (ms : List ClientMsg) : Nat := (ms.filter isStart).length

/-- Number of audio messages in a sequence. -/
def countAudio (ms : List ClientMsg) : Nat := (ms.filter isAudioMsg).length

/-- Number of turn_complete messages in a sequence. -/
def countTC (ms : List ClientMsg) : Nat := (ms.filter isTC).length

/- ===== inbound relay (send_to_gemini) ===== -/

/-- One media chunk of a client frame, with its payload already base64
decoded. -/
structure Chunk where
  mimeType : String
  data : List Nat
deriving DecidableEq

/-- One message read from the client websocket by send_to_gemini.  malformed
covers a frame that raises while being decoded (invalid JSON, missing
media_chunks field, undecodable payload); noRealtimeInput is a valid JSON
frame without the realtime_input key, which the source skips silently. -/
inductive Frame where
  | malformed
  | noRealtimeInput
  | realtimeInput (chunks : List Chunk)
deriving DecidableEq

/-- A packet forwarded into the upstream duplex stream. -/
inductive Packet where
  | audio (data : List Nat)
  | image (data : List Nat)
deriving DecidableEq

/-- Classification of one chunk by mime type: audio/pcm and image/jpeg are
forwarded, every other mime type is ignored. -/
def chunkPacket (c : Chunk) : Option Packet :=
  if c.mimeType = audioPcmMime then some (Packet.audio c.data)
  else if c.mimeType = imageJpegMime then some (Packet.image c.data)
  else none

/-- The for loop over the chunks of one frame.  sendOk tells whether the
upstream send operation succeeds for a packet; when it raises, the exception
aborts the remaining chunks of this frame (it propagates to the per-message
except handler), so the rest of the frame is dropped. -/
def processChunks (sendOk : Packet → Bool) : List Chunk → List Packet
  | [] => []
  | c :: cs =>
    match chunkPacket c with
    | none => processChunks sendOk cs
    | some p => if sendOk p then p :: processChunks sendOk cs else []

/-- Processing of one client frame by the body of the async for loop of
send_to_gemini.  Every exception inside the body, including an upstream send
failure, is caught by the per-message except handler, so each frame yields
its forwarded packets independently. -/
def processFrame (sendOk : Packet → Bool) : Frame → List Packet
  | Frame.malformed => []
  | Frame.noRealtimeInput => []
  | Frame.realtimeInput cs => processChunks sendOk cs

/-- The send loop of send_to_gemini folded over the full sequence of client
messages (the stream the websocket delivers until the client connection
closes): the packets forwarded upstream. -/
def send_to_gemini (sendOk : Packet → Bool) (frames : List Frame) : List Packet :=
  (frames.map (processFrame sendOk)).flatten

/- ===== session coordinator handshake (gemini_session_handler) ===== -/

/-- JSON values, as far as the handshake path needs them. -/
inductive JsonVal where
  | obj (fields : List (String × JsonVal))
  | str (s : String)
  | num (n : Int)
  | boolean (b : Bool)
  | null
  | arr (xs : List JsonVal)

/-- Whether a JSON value is an object; json.loads must produce a dict for the
handshake path to proceed past config_data.get. -/
def JsonVal.isObj : JsonVal → Bool
  | JsonVal.obj _ => true
  | _ => false

/-- Python dict.get with a default, on a JSON object. -/
def JsonVal.get (j : JsonVal) (k : String) (dflt : JsonVal) : JsonVal :=
  match j with
  | JsonVal.obj fs =>
    match fs.find? (fun kv => kv.1 == k) with
    | some kv => kv.2
    | none => dflt
  | _ => dflt

/-- The upstream session configuration: response modalities, voice name, and
system instruction, as assembled by gemini_session_handler. -/
structure LiveConnectConfig where
  responseModalities : List String
  voiceName : String
  instructionRole : String
  instructionText : String
deriving DecidableEq

/-- The fixed configuration the server always sends upstream (server.py
lines 54-80). -/
def policyConfig : LiveConnectConfig :=
  { responseModalities := [audioModality]
    voiceName := aoedeVoice
    instructionRole := systemRole
    instructionText := nativeFlowInstruction }

/-- Embedding of the configuration computation of gemini_session_handler
(server.py lines 48-80): the setup field of the handshake is read, then the
config variable is immediately rebound to the fixed policy configuration, so
the value read from the client is dropped. -/
def gemini_session_config (configData : JsonVal) : LiveConnectConfig :=
  let _config := configData.get setupKey (JsonVal.obj [])
  policyConfig

/- ===== concrete instances used for evaluation ===== -/

/-- An encoder oracle that always raises, the worst external behaviour. -/
def encRaises : List Nat → Enc := fun _ => Enc.raises

/-- A sample text fragment. -/
def helloText : String := "hello"

/-- A 4800-byte PCM fragment, exactly the minimum turn threshold. -/
def bigBytes : List Nat := List.replicate 4800 7

/-- A 200-byte PCM fragment, below the minimum turn threshold. -/
def smallBytes : List Nat := List.replicate 200 7

/-- A response carrying one audio part at the threshold size. -/
def audioRespBig : Response := ⟨some ⟨some [⟨none, some bigBytes⟩], false⟩⟩

/-- A response carrying one audio part below the threshold size. -/
def audioRespSmall : Response := ⟨some ⟨some [⟨none, some smallBytes⟩], false⟩⟩

/-- A response that only completes the turn. -/
def completeResp : Response := ⟨some ⟨none, true⟩⟩

/-- A part carrying both text and inline audio data. -/
def bothPart : Part := ⟨some helloText, some smallBytes⟩

/-- A short PCM buffer for the header theorem. -/
def wavPcm : List Nat := [0, 0, 0, 0]

/-- An upstream send oracle that raises exactly on the one-byte audio packet
with payload byte 1. -/
def sendFailOn1 : Packet → Bool :=
  fun p => if p = Packet.audio [1] then false else true

/-- A client frame with one audio chunk of payload byte 1. -/
def frameA1 : Frame := Frame.realtimeInput [⟨audioPcmMime, [1]⟩]

/-- A client frame with one audio chunk of payload byte 2. -/
def frameA2 : Frame := Frame.realtimeInput [⟨audioPcmMime, [2]⟩]

/- ===== helper lemmas ===== -/

theorem count_zero_of_all {p : ClientMsg → Bool} :
    ∀ {ms : List ClientMsg}, (∀ m ∈ ms, p m = false) → (ms.filter p).length = 0 := by
  intro ms h
  induction ms with
  | nil => rfl
  | cons m ms ih =>
    have hm := h m (List.mem_cons_self m ms)
    simp only [List.filter_cons, hm, Bool.false_eq_true, if_false]
    exact ih fun x hx => h x (List.mem_cons_of_mem m hx)

theorem textsOf_append (ms ns : List ClientMsg) :
    textsOf (ms ++ ns) = textsOf ms ++ textsOf ns := by
  simp [textsOf, List.filterMap_append]

theorem textsOf_map_text (ts : List String) :
    textsOf (ts.map ClientMsg.text) = ts := by
  induction ts with
  | nil => rfl
  | cons t ts ih => simp [textsOf, msgText, List.filterMap_cons] at ih ⊢; exact ih

theorem countStart_append (ms ns : List ClientMsg) :
    countStart (ms ++ ns) = countStart ms + countStart ns := by
  simp [countStart, List.filter_append]

theorem countAudio_append (ms ns : List ClientMsg) :
    countAudio (ms ++ ns) = countAudio ms + countAudio ns := by
  simp [countAudio, List.filter_append]

theorem countTC_append (ms ns : List ClientMsg) :
    countTC (ms ++ ns) = countTC ms + countTC ns := by
  simp [countTC, List.filter_append]

theorem countStart_map_text (ts : List String) :
    countStart (ts.map ClientMsg.text) = 0 := by
  refine count_zero_of_all fun m hm => ?_
  obtain ⟨t, _, rfl⟩ := List.mem_map.mp hm
  rfl

/- ===== folding the part loop ===== -/

theorem foldParts_spec : ∀ (parts : List Part) (st : RelayState),
    (foldParts st parts).1.audioStartSent = st.audioStartSent ∧
    (foldParts st parts).1.accumulated = st.accumulated ++ partsAudio parts ∧
    (foldParts st parts).2 = (partTexts parts).map ClientMsg.text := by
  intro parts
  induction parts with
  | nil => intro st; exact ⟨rfl, by simp [foldParts, partsAudio], rfl⟩
  | cons p ps ih =>
    intro st
    obtain ⟨t, d⟩ := p
    cases t with
    | some t =>
      have h := ih { st with currentText := st.currentText ++ t }
      refine ⟨h.1, ?_, ?_⟩
      · simpa [foldParts, stepPart, partsAudio, partAudio] using h.2.1
      · simpa [foldParts, stepPart, partTexts] using h.2.2
    | none =>
      cases d with
      | some d =>
        have h := ih { st with accumulated := st.accumulated ++ d }
        refine ⟨h.1, ?_, ?_⟩
        · simp [foldParts, stepPart, partsAudio, partAudio, h.2.1, List.append_assoc]
        · simpa [foldParts, stepPart, partTexts] using h.2.2
      | none =>
        have h := ih st
        refine ⟨h.1, ?_, ?_⟩
        · simpa [foldParts, stepPart, partsAudio, partAudio] using h.2.1
        · simpa [foldParts, stepPart, partTexts] using h.2.2

theorem processParts_spec (st : RelayState) (parts : List Part) :
    (processParts st parts).1.audioStartSent =
      (st.audioStartSent || !(parts.filter partHasData).isEmpty) ∧
    (processParts st parts).1.accumulated = st.accumulated ++ partsAudio parts ∧
    (processParts st parts).2 =
      (if st.audioStartSent = false ∧ (parts.filter partHasData).isEmpty = false
        then [ClientMsg.audioStart] else []) ++ (partTexts parts).map ClientMsg.text := by
  have hf := foldParts_spec parts { st with audioStartSent := true }
  have hg := foldParts_spec parts st
  unfold processParts
  cases hs : st.audioStartSent <;> cases he : (parts.filter partHasData).isEmpty <;>
    simp_all

theorem processParts_empty (st : RelayState) : processParts st [] = (st, []) := by
  simp [processParts, foldParts]

/- ===== one response ===== -/

theorem processResponse_noncomplete (hp : Bool) (enc : List Nat → Enc)
    (st : RelayState) (r : Response) (h : respComplete r = false) :
    processResponse hp enc st r = processParts st (respParts r) := by
  unfold processResponse
  cases hsc : r.serverContent with
  | none => simp [respParts, hsc, processParts_empty]
  | some sc =>
    have hc : sc.turnComplete = false := by simpa [respComplete, hsc] using h
    cases hmt : sc.modelTurn with
    | none => simp [respParts, hsc, hmt, hc, processParts_empty]
    | some parts => simp [respParts, hsc, hmt, hc]

theorem processResponse_complete (hp : Bool) (enc : List Nat → Enc)
    (st : RelayState) (r : Response) (h : respComplete r = true) :
    processResponse hp enc st r =
      (initState,
        (processParts st (respParts r)).2 ++
          (drainMsgs hp enc (st.accumulated ++ partsAudio (respParts r)) ++
            [ClientMsg.turnComplete])) := by
  unfold processResponse
  cases hsc : r.serverContent with
  | none => simp [respComplete, hsc] at h
  | some sc =>
    have hc : sc.turnComplete = true := by simpa [respComplete, hsc] using h
    cases hmt : sc.modelTurn with
    | none =>
      simp [respParts, hsc, hmt, hc, completeTurn, processParts_empty, partsAudio]
    | some parts =>
      have hacc := (processParts_spec st parts).2.1
      simp [respParts, hsc, hmt, hc, completeTurn, hacc]

/- ===== folding the receive loop ===== -/

theorem runReceive_append (hp : Bool) (enc : List Nat → Enc) :
    ∀ (xs ys : List Response) (st : RelayState),
    runReceive hp enc st (xs ++ ys) =
      ((runReceive hp enc (runReceive hp enc st xs).1 ys).1,
       (runReceive hp enc st xs).2 ++ (runReceive hp enc (runReceive hp enc st xs).1 ys).2) := by
  intro xs
  induction xs with
  | nil => intro ys st; simp [runReceive]
  | cons x xs ih => intro ys st; simp [runReceive, ih, List.append_assoc]

theorem runReceive_single (hp : Bool) (enc : List Nat → Enc)
    (st : RelayState) (r : Response) :
    runReceive hp enc st [r] = processResponse hp enc st r := by
  simp [runReceive]

/-- Behaviour of the receive loop over a run of responses none of which
completes the turn: the buffer grows by exactly the audio of the run, texts
stream through in arrival order, no audio or turn_complete message is
produced, and audio_start is produced exactly once as soon as the run has an
audio part and the flag was clear. -/
theorem runReceive_open_spec (hp : Bool) (enc : List Nat → Enc) :
    ∀ (rs : List Response) (st : RelayState), (∀ r ∈ rs, respComplete r = false) →
    (runReceive hp enc st rs).1.audioStartSent = (st.audioStartSent || turnHasAudio rs) ∧
    (runReceive hp enc st rs).1.accumulated = st.accumulated ++ turnAudio rs ∧
    textsOf (runReceive hp enc st rs).2 = turnTexts rs ∧
    (∀ m ∈ (runReceive hp enc st rs).2, isAudioMsg m = false ∧ isTC m = false) ∧
    countStart (runReceive hp enc st rs).2 =
      (if st.audioStartSent = false ∧ turnHasAudio rs = true then 1 else 0) := by
  intro rs
  induction rs with
  | nil =>
    intro st h
    refine ⟨by simp [runReceive, turnHasAudio], by simp [runReceive, turnAudio],
      by simp [runReceive, textsOf, turnTexts], by simp [runReceive], ?_⟩
    simp [runReceive, countStart, turnHasAudio]
  | cons r rs ih =>
    intro st h
    have hr : respComplete r = false := h r (List.mem_cons_self r rs)
    have hrs : ∀ x ∈ rs, respComplete x = false := fun x hx => h x (List.mem_cons_of_mem r hx)
    have hpr := processResponse_noncomplete hp enc st r hr
    have hpp := processParts_spec st (respParts r)
    have hpp1 : (processParts st (respParts r)).1.audioStartSent =
        (st.audioStartSent || respHasAudio r) := by
      rw [hpp.1]; rfl
    have hih := ih (processParts st (respParts r)).1 hrs
    have hrun : runReceive hp enc st (r :: rs) =
        ((runReceive hp enc (processParts st (respParts r)).1 rs).1,
         (processParts st (respParts r)).2 ++
           (runReceive hp enc (processParts st (respParts r)).1 rs).2) := by
      simp [runReceive, hpr]
    rw [hrun]
    refine ⟨?_, ?_, ?_, ?_, ?_⟩
    · rw [hih.1, hpp1]
      simp [turnHasAudio, Bool.or_assoc]
    · rw [hih.2.1, hpp.2.1]
      simp [turnAudio, respAudio, List.append_assoc]
    · rw [textsOf_append, hih.2.2.1, hpp.2.2]
      rw [textsOf_append, textsOf_map_text]
      have hite : textsOf (if st.audioStartSent = false ∧
          ((respParts r).filter partHasData).isEmpty = false
          then [ClientMsg.audioStart] else []) = [] := by
        split <;> simp [textsOf, msgText]
      rw [hite]
      simp [turnTexts, respTexts]
    · intro m hm
      rcases List.mem_append.mp hm with hm | hm
      · rw [hpp.2.2] at hm
        rcases List.mem_append.mp hm with hm | hm
        · have : m = ClientMsg.audioStart := by
            rcases (by split at hm <;> simp_all :
              m = ClientMsg.audioStart ∨ False) with h | h
            · exact h
            · exact absurd h not_false
          subst this
          exact ⟨rfl, rfl⟩
        · obtain ⟨t, _, rfl⟩ := List.mem_map.mp hm
          exact ⟨rfl, rfl⟩
      · exact hih.2.2.2.1 m hm
    · rw [countStart_append, hpp.2.2, countStart_append, countStart_map_text,
        hih.2.2.2.2, hpp1]
      have hcs : countStart (if st.audioStartSent = false ∧
          ((respParts r).filter partHasData).isEmpty = false
          then [ClientMsg.audioStart] else []) =
          (if st.audioStartSent = false ∧ respHasAudio r = true then 1 else 0) := by
        unfold respHasAudio
        split <;> rename_i hcond
        · rw [if_pos]
          · simp [countStart, isStart]
          · exact ⟨hcond.1, by simp [hcond.2]⟩
        · rw [if_neg]
          · simp [countStart]
          · intro hc
            exact hcond ⟨hc.1, by simpa using hc.2⟩
      rw [hcs]
      cases hs : st.audioStartSent <;> cases ha : respHasAudio r <;>
        cases hb : turnHasAudio rs <;> simp [turnHasAudio, hs, ha, hb]

/- ===== draining a completed turn ===== -/

theorem drainMsgs_all_audio (hp : Bool) (enc : List Nat → Enc) (buf : List Nat) :
    ∀ m ∈ drainMsgs hp enc buf,
      isAudioMsg m = true ∧ isStart m = false ∧ isTC m = false ∧ msgText m = none := by
  intro m hm
  unfold drainMsgs at hm
  split at hm
  · split at hm <;> simp_all <;> subst hm <;> exact ⟨rfl, rfl, rfl, rfl⟩
  · simp at hm

theorem drainMsgs_length_le (hp : Bool) (enc : List Nat → Enc) (buf : List Nat) :
    (drainMsgs hp enc buf).length ≤ 1 := by
  unfold drainMsgs
  split
  · split <;> simp
  · simp

theorem drainMsgs_short (hp : Bool) (enc : List Nat → Enc) (buf : List Nat)
    (h : buf.length < 4800) : drainMsgs hp enc buf = [] := by
  unfold drainMsgs
  rw [if_neg]
  intro hc
  omega

theorem drainMsgs_conv (hp : Bool) (enc : List Nat → Enc) (buf : List Nat)
    (h : 4800 ≤ buf.length) :
    drainMsgs hp enc buf =
      (match convert_pcm_to_mp3 hp enc buf 24000 with
        | some mp3 => [ClientMsg.audio mp3 none]
        | none => [ClientMsg.audio (create_wav_header buf 24000 1 16) (some wavFormat)]) := by
  unfold drainMsgs
  rw [if_pos]
  refine ⟨?_, h⟩
  intro hnil
  rw [hnil] at h
  simp at h

theorem textsOf_drain (hp : Bool) (enc : List Nat → Enc) (buf : List Nat) :
    textsOf (drainMsgs hp enc buf) = [] := by
  have h := drainMsgs_all_audio hp enc buf
  unfold textsOf
  rw [List.filterMap_eq_nil_iff]
  intro m hm
  exact (h m hm).2.2.2

theorem countStart_drain (hp : Bool) (enc : List Nat → Enc) (buf : List Nat) :
    countStart (drainMsgs hp enc buf) = 0 :=
  count_zero_of_all fun m hm => (drainMsgs_all_audio hp enc buf m hm).2.1

theorem countTC_drain (hp : Bool) (enc : List Nat → Enc) (buf : List Nat) :
    countTC (drainMsgs hp enc buf) = 0 :=
  count_zero_of_all fun m hm => (drainMsgs_all_audio hp enc buf m hm).2.2.1

theorem countAudio_drain_le (hp : Bool) (enc : List Nat → Enc) (buf : List Nat) :
    countAudio (drainMsgs hp enc buf) ≤ 1 :=
  le_trans (List.length_filter_le _ _) (drainMsgs_length_le hp enc buf)

/- ===== splitting an event sequence at the turn boundary ===== -/

theorem turnAudio_append (xs ys : List Response) :
    turnAudio (xs ++ ys) = turnAudio xs ++ turnAudio ys := by
  induction xs with
  | nil => simp [turnAudio]
  | cons x xs ih => simp [turnAudio, ih, List.append_assoc]

theorem turnTexts_append (xs ys : List Response) :
    turnTexts (xs ++ ys) = turnTexts xs ++ turnTexts ys := by
  induction xs with
  | nil => simp [turnTexts]
  | cons x xs ih => simp [turnTexts, ih, List.append_assoc]

theorem turnHasAudio_append (xs ys : List Response) :
    turnHasAudio (xs ++ ys) = (turnHasAudio xs || turnHasAudio ys) := by
  induction xs with
  | nil => simp [turnHasAudio]
  | cons x xs ih => simp [turnHasAudio, ih, Bool.or_assoc]

/-- The decomposition of the messages of one full turn: the accumulation
messages of the body, the accumulation messages of the final parts, then the
drained audio and the turn_complete signal, with the relay state reset. -/
theorem runReceive_turn_split (hp : Bool) (enc : List Nat → Enc)
    (body : List Response) (last : Response)
    (hbody : ∀ r ∈ body, respComplete r = false)
    (hlast : respComplete last = true) :
    (runReceive hp enc initState (body ++ [last])).1 = initState ∧
    (runReceive hp enc initState (body ++ [last])).2 =
      ((runReceive hp enc initState body).2 ++
        (processParts (runReceive hp enc initState body).1 (respParts last)).2) ++
      (drainMsgs hp enc (turnAudio (body ++ [last])) ++ [ClientMsg.turnComplete]) := by
  have hsplit := runReceive_append hp enc body [last] initState
  have hopen := runReceive_open_spec hp enc body initState hbody
  have hlastr := processResponse_complete hp enc
    (runReceive hp enc initState body).1 last hlast
  have hsingle := runReceive_single hp enc (runReceive hp enc initState body).1 last
  have hbuf : (runReceive hp enc initState body).1.accumulated ++
      partsAudio (respParts last) = turnAudio (body ++ [last]) := by
    rw [hopen.2.1, turnAudio_append]
    simp [turnAudio, respAudio, initState]
  constructor
  · rw [hsplit, hsingle, hlastr]
  · rw [hsplit, hsingle, hlastr]
    simp only [hbuf]
    simp [List.append_assoc]

theorem processParts_msgs_mem (st : RelayState) (parts : List Part) :
    ∀ m ∈ (processParts st parts).2, isAudioMsg m = false ∧ isTC m = false := by
  intro m hm
  rw [(processParts_spec st parts).2.2] at hm
  rcases List.mem_append.mp hm with hm | hm
  · split at hm
    · rw [List.mem_singleton] at hm
      subst hm
      exact ⟨rfl, rfl⟩
    · simp at hm
  · obtain ⟨t, _, rfl⟩ := List.mem_map.mp hm
    exact ⟨rfl, rfl⟩

theorem countStart_processParts (st : RelayState) (parts : List Part) :
    countStart (processParts st parts).2 =
      (if st.audioStartSent = false ∧ (parts.filter partHasData).isEmpty = false
        then 1 else 0) := by
  rw [(processParts_spec st parts).2.2, countStart_append, countStart_map_text]
  split <;> simp [countStart, isStart]

theorem textsOf_processParts (st : RelayState) (parts : List Part) :
    textsOf (processParts st parts).2 = partTexts parts := by
  rw [(processParts_spec st parts).2.2, textsOf_append, textsOf_map_text]
  split <;> simp [textsOf, msgText]

theorem countTC_processParts (st : RelayState) (parts : List Part) :
    countTC (processParts st parts).2 = 0 :=
  count_zero_of_all fun m hm => (processParts_msgs_mem st parts m hm).2

theorem countAudio_processParts (st : RelayState) (parts : List Part) :
    countAudio (processParts st parts).2 = 0 :=
  count_zero_of_all fun m hm => (processParts_msgs_mem st parts m hm).1

theorem partsAudio_nil_of_text :
    ∀ parts : List Part, (∀ p ∈ parts, p.text.isSome) → partsAudio parts = [] := by
  intro parts h
  induction parts with
  | nil => rfl
  | cons p ps ih =>
    have hp := h p (List.mem_cons_self p ps)
    obtain ⟨t, ht⟩ := Option.isSome_iff_exists.mp hp
    simp only [partsAudio, partAudio, ht]
    exact ih fun x hx => h x (List.mem_cons_of_mem p hx)

/- ===== claim theorems for the outbound relay ===== -/

/-- C8: if the upstream event stream ends before a TurnComplete event for the
currently open turn, the relay exits its loop without sending any audio
message or turn_complete message for that partial turn; the accumulated
buffer is discarded and never reaches the client. -/
theorem midturn_upstream_end (hp : Bool) (enc : List Nat → Enc)
    (st : RelayState) (rs : List Response)
    (h : ∀ r ∈ rs, respComplete r = false) :
    countAudio (runReceive hp enc st rs).2 = 0 ∧
    countTC (runReceive hp enc st rs).2 = 0 := by
  have ho := runReceive_open_spec hp enc rs st h
  exact ⟨count_zero_of_all fun m hm => (ho.2.2.2.1 m hm).1,
         count_zero_of_all fun m hm => (ho.2.2.2.1 m hm).2⟩

/-- C3: when a turn completes, the relay state is reset to the empty initial
state (flag cleared, text cleared, buffer cleared), so events that arrive
after a TurnComplete are processed from the empty state: the message stream
splits at the turn boundary, and the closed turn is unaffected by later
fragments. -/
theorem turn_isolation (hp : Bool) (enc : List Nat → Enc)
    (st : RelayState) (rs1 : List Response) (last : Response) (rs2 : List Response)
    (hlast : respComplete last = true) :
    (runReceive hp enc st (rs1 ++ [last])).1 = initState ∧
    (runReceive hp enc st (rs1 ++ last :: rs2)).2 =
      (runReceive hp enc st (rs1 ++ [last])).2 ++ (runReceive hp enc initState rs2).2 := by
  have h1 : (runReceive hp enc st (rs1 ++ [last])).1 = initState := by
    rw [runReceive_append hp enc rs1 [last] st, runReceive_single,
        processResponse_complete hp enc (runReceive hp enc st rs1).1 last hlast]
  refine ⟨h1, ?_⟩
  have hsplit : rs1 ++ last :: rs2 = (rs1 ++ [last]) ++ rs2 := by simp
  rw [hsplit, runReceive_append hp enc (rs1 ++ [last]) rs2 st, h1]

/-- C1: for one turn containing at least one audio fragment and ending with
TurnComplete, the client observes exactly one audio_start, every text in
arrival order, at most one audio message and exactly one turn_complete; all
accumulation messages (the audio_start and the texts) precede the drained
audio and turn_complete, and any audio message carries the conversion of the
whole turn buffer, never an individual raw fragment. -/
theorem turn_signal_protocol (hp : Bool) (enc : List Nat → Enc)
    (body : List Response) (last : Response)
    (hbody : ∀ r ∈ body, respComplete r = false)
    (hlast : respComplete last = true)
    (haud : turnHasAudio (body ++ [last]) = true) :
    countStart (turnMsgs hp enc (body ++ [last])) = 1 ∧
    countAudio (turnMsgs hp enc (body ++ [last])) ≤ 1 ∧
    countTC (turnMsgs hp enc (body ++ [last])) = 1 ∧
    textsOf (turnMsgs hp enc (body ++ [last])) = turnTexts (body ++ [last]) ∧
    ∃ pre, turnMsgs hp enc (body ++ [last]) =
        pre ++ (drainMsgs hp enc (turnAudio (body ++ [last])) ++ [ClientMsg.turnComplete]) ∧
      countStart pre = 1 ∧ ∀ m ∈ pre, isAudioMsg m = false ∧ isTC m = false := by
  have hsplit := runReceive_turn_split hp enc body last hbody hlast
  have hopen := runReceive_open_spec hp enc body initState hbody
  have hmsg : turnMsgs hp enc (body ++ [last]) =
      ((runReceive hp enc initState body).2 ++
        (processParts (runReceive hp enc initState body).1 (respParts last)).2) ++
      (drainMsgs hp enc (turnAudio (body ++ [last])) ++ [ClientMsg.turnComplete]) :=
    hsplit.2
  have hsent : (runReceive hp enc initState body).1.audioStartSent = turnHasAudio body := by
    rw [hopen.1]; simp [initState]
  have hcsB : countStart (runReceive hp enc initState body).2 =
      (if turnHasAudio body = true then 1 else 0) := by
    rw [hopen.2.2.2.2]
    simp [initState]
  have hcsP : countStart
      (processParts (runReceive hp enc initState body).1 (respParts last)).2 =
      (if turnHasAudio body = false ∧ respHasAudio last = true then 1 else 0) := by
    rw [countStart_processParts]
    rw [hsent]
    unfold respHasAudio
    by_cases hc : turnHasAudio body = false ∧ ((respParts last).filter partHasData).isEmpty = false
    · rw [if_pos hc, if_pos ⟨hc.1, by simp [hc.2]⟩]
    · rw [if_neg hc, if_neg]
      intro hc2
      exact hc ⟨hc2.1, by simpa using hc2.2⟩
  have haudsplit : (turnHasAudio body || respHasAudio last) = true := by
    rw [turnHasAudio_append] at haud
    simpa [turnHasAudio] using haud
  have hpre1 : countStart ((runReceive hp enc initState body).2 ++
      (processParts (runReceive hp enc initState body).1 (respParts last)).2) = 1 := by
    rw [countStart_append, hcsB, hcsP]
    cases hb : turnHasAudio body <;> cases hl : respHasAudio last
    · rw [hb, hl] at haudsplit
      simp at haudsplit
    · simp
    · simp
    · simp
  have hpremem : ∀ m ∈ (runReceive hp enc initState body).2 ++
      (processParts (runReceive hp enc initState body).1 (respParts last)).2,
      isAudioMsg m = false ∧ isTC m = false := by
    intro m hm
    rcases List.mem_append.mp hm with hm | hm
    · exact hopen.2.2.2.1 m hm
    · exact processParts_msgs_mem _ _ m hm
  refine ⟨?_, ?_, ?_, ?_, ?_⟩
  · rw [hmsg, countStart_append, hpre1, countStart_append, countStart_drain]
    simp [countStart, isStart]
  · have h0 : countAudio ((runReceive hp enc initState body).2 ++
        (processParts (runReceive hp enc initState body).1 (respParts last)).2) = 0 :=
      count_zero_of_all fun m hm => (hpremem m hm).1
    rw [hmsg, countAudio_append, h0, countAudio_append]
    have h1 := countAudio_drain_le hp enc (turnAudio (body ++ [last]))
    have h2 : countAudio [ClientMsg.turnComplete] = 0 := rfl
    omega
  · have h0 : countTC ((runReceive hp enc initState body).2 ++
        (processParts (runReceive hp enc initState body).1 (respParts last)).2) = 0 :=
      count_zero_of_all fun m hm => (hpremem m hm).2
    rw [hmsg, countTC_append, h0, countTC_append, countTC_drain]
    simp [countTC, isTC]
  · rw [hmsg, textsOf_append, textsOf_append, textsOf_append, textsOf_drain,
      textsOf_processParts, hopen.2.2.1]
    rw [turnTexts_append]
    simp [turnTexts, respTexts, textsOf, msgText]
  · refine ⟨(runReceive hp enc initState body).2 ++
      (processParts (runReceive hp enc initState body).1 (respParts last)).2,
      hmsg, hpre1, hpremem⟩

/-- C4: a turn whose accumulated buffer at TurnComplete is nonempty but below
the 4800-byte threshold produces no audio message, but still produces exactly
one turn_complete message. -/
theorem below_threshold_turn (hp : Bool) (enc : List Nat → Enc)
    (body : List Response) (last : Response)
    (hbody : ∀ r ∈ body, respComplete r = false)
    (hlast : respComplete last = true)
    (hne : turnAudio (body ++ [last]) ≠ [])
    (hlt : (turnAudio (body ++ [last])).length < 4800) :
    countAudio (turnMsgs hp enc (body ++ [last])) = 0 ∧
    countTC (turnMsgs hp enc (body ++ [last])) = 1 := by
  have hsplit := runReceive_turn_split hp enc body last hbody hlast
  have hopen := runReceive_open_spec hp enc body initState hbody
  have hdrain := drainMsgs_short hp enc (turnAudio (body ++ [last])) hlt
  have hmsg : turnMsgs hp enc (body ++ [last]) =
      ((runReceive hp enc initState body).2 ++
        (processParts (runReceive hp enc initState body).1 (respParts last)).2) ++
      (drainMsgs hp enc (turnAudio (body ++ [last])) ++ [ClientMsg.turnComplete]) :=
    hsplit.2
  rw [hdrain] at hmsg
  have hpremem : ∀ m ∈ (runReceive hp enc initState body).2 ++
      (processParts (runReceive hp enc initState body).1 (respParts last)).2,
      isAudioMsg m = false ∧ isTC m = false := by
    intro m hm
    rcases List.mem_append.mp hm with hm | hm
    · exact hopen.2.2.2.1 m hm
    · exact processParts_msgs_mem _ _ m hm
  constructor
  · have h0 : countAudio ((runReceive hp enc initState body).2 ++
        (processParts (runReceive hp enc initState body).1 (respParts last)).2) = 0 :=
      count_zero_of_all fun m hm => (hpremem m hm).1
    rw [hmsg, countAudio_append, h0]
    simp [countAudio, isAudioMsg]
  · have h0 : countTC ((runReceive hp enc initState body).2 ++
        (processParts (runReceive hp enc initState body).1 (respParts last)).2) = 0 :=
      count_zero_of_all fun m hm => (hpremem m hm).2
    rw [hmsg, countTC_append, h0]
    simp [countTC, isTC]

/-- C5: for a turn whose buffer meets the threshold, the relay sends the MP3
conversion result when it exists, and otherwise the WAV fallback container
tagged with format wav; in both cases turn_complete follows unconditionally. -/
theorem conversion_failure_fallback (hp : Bool) (enc : List Nat → Enc)
    (body : List Response) (last : Response)
    (hbody : ∀ r ∈ body, respComplete r = false)
    (hlast : respComplete last = true)
    (hge : 4800 ≤ (turnAudio (body ++ [last])).length) :
    ∃ pre, (∀ m ∈ pre, isAudioMsg m = false ∧ isTC m = false) ∧
      (∀ mp3, convert_pcm_to_mp3 hp enc (turnAudio (body ++ [last])) 24000 = some mp3 →
        turnMsgs hp enc (body ++ [last]) =
          pre ++ [ClientMsg.audio mp3 none, ClientMsg.turnComplete]) ∧
      (convert_pcm_to_mp3 hp enc (turnAudio (body ++ [last])) 24000 = none →
        turnMsgs hp enc (body ++ [last]) =
          pre ++ [ClientMsg.audio
              (create_wav_header (turnAudio (body ++ [last])) 24000 1 16)
              (some wavFormat), ClientMsg.turnComplete]) := by
  have hsplit := runReceive_turn_split hp enc body last hbody hlast
  have hopen := runReceive_open_spec hp enc body initState hbody
  have hdrain := drainMsgs_conv hp enc (turnAudio (body ++ [last])) hge
  have hmsg : turnMsgs hp enc (body ++ [last]) =
      ((runReceive hp enc initState body).2 ++
        (processParts (runReceive hp enc initState body).1 (respParts last)).2) ++
      (drainMsgs hp enc (turnAudio (body ++ [last])) ++ [ClientMsg.turnComplete]) :=
    hsplit.2
  refine ⟨(runReceive hp enc initState body).2 ++
      (processParts (runReceive hp enc initState body).1 (respParts last)).2, ?_, ?_, ?_⟩
  · intro m hm
    rcases List.mem_append.mp hm with hm | hm
    · exact hopen.2.2.2.1 m hm
    · exact processParts_msgs_mem _ _ m hm
  · intro mp3 hconv
    rw [hmsg, hdrain, hconv]
    rfl
  · intro hconv
    rw [hmsg, hdrain, hconv]
    rfl

/-- C10: a model-turn part carrying both text and inline audio data is
processed only as text (the elif never appends its bytes to the buffer), yet
it still counts toward the audio_start signal; a turn made only of such
parts yields audio_start, the texts and turn_complete, but no audio
message. -/
theorem text_part_with_inline_data (hp : Bool) (enc : List Nat → Enc)
    (parts : List Part)
    (hne : parts ≠ [])
    (hall : ∀ p ∈ parts, p.text.isSome ∧ p.inlineData.isSome) :
    partsAudio parts = [] ∧
    turnMsgs hp enc [⟨some ⟨some parts, true⟩⟩] =
      ClientMsg.audioStart ::
        ((partTexts parts).map ClientMsg.text ++ [ClientMsg.turnComplete]) := by
  have hpa : partsAudio parts = [] :=
    partsAudio_nil_of_text parts fun p hpmem => (hall p hpmem).1
  refine ⟨hpa, ?_⟩
  have hr : respComplete ⟨some ⟨some parts, true⟩⟩ = true := rfl
  have hcomp := processResponse_complete hp enc initState ⟨some ⟨some parts, true⟩⟩ hr
  have hrparts : respParts ⟨some ⟨some parts, true⟩⟩ = parts := rfl
  rw [hrparts] at hcomp
  have hdrain : drainMsgs hp enc (initState.accumulated ++ partsAudio parts) = [] := by
    rw [hpa]
    simp [initState, drainMsgs]
  rw [hdrain] at hcomp
  have hfilter : parts.filter partHasData = parts :=
    List.filter_eq_self.mpr fun p hpmem => by
      simpa [partHasData] using (hall p hpmem).2
  have hcond : initState.audioStartSent = false ∧
      (parts.filter partHasData).isEmpty = false := by
    refine ⟨rfl, ?_⟩
    rw [hfilter]
    cases parts with
    | nil => exact absurd rfl hne
    | cons p ps => rfl
  have hpp := (processParts_spec initState parts).2.2
  rw [if_pos hcond] at hpp
  unfold turnMsgs
  rw [runReceive_single, hcomp]
  simp only [hpp]
  simp

/- ===== the WAV header ===== -/

theorem toBytesLE_length (len n : Nat) : (toBytesLE len n).length = len := by
  simp [toBytesLE]

theorem toBytesLE_succ (len n : Nat) :
    toBytesLE (len + 1) n = n % 256 :: toBytesLE len (n / 256) := by
  unfold toBytesLE
  rw [List.range_succ_eq_map]
  simp only [List.map_cons, List.map_map]
  congr 1
  · simp
  · apply List.map_congr_left
    intro i _
    simp only [Function.comp]
    rw [Nat.div_div_eq_div_mul]
    congr 1
    rw [pow_succ, Nat.mul_comm]

theorem fromBytesLE_toBytesLE :
    ∀ (len n : Nat), n < 256 ^ len → fromBytesLE (toBytesLE len n) = n := by
  intro len
  induction len with
  | zero =>
    intro n h
    interval_cases n
    rfl
  | succ len ih =>
    intro n h
    rw [toBytesLE_succ]
    have hdiv : n / 256 < 256 ^ len := by
      rw [Nat.div_lt_iff_lt_mul (by norm_num : 0 < 256)]
      calc n < 256 ^ (len + 1) := h
        _ = 256 ^ len * 256 := by rw [pow_succ]
    unfold fromBytesLE
    simp only [List.foldr_cons]
    have := ih (n / 256) hdiv
    unfold fromBytesLE at this
    rw [this]
    omega

set_option maxHeartbeats 4000000 in
/-- C2: create_wav_header returns a 44-byte header followed by the input
buffer verbatim; the header carries the RIFF, WAVE, fmt and data tags at
their standard offsets and declares format tag 1 (linear PCM), the given
channel count and sample rate, byte rate, block alignment and bits per
sample, the data chunk length equal to the buffer length, and the RIFF size
field 36 plus the buffer length.  The bounds keep every field inside the
range its byte width can represent, as Python to_bytes requires. -/
theorem create_wav_header_spec (pcm : List Nat) (sr ch bps : Nat)
    (hsr : sr < 2 ^ 32) (hch : ch < 2 ^ 16) (hbps : bps < 2 ^ 16)
    (hbr : sr * ch * bps / 8 < 2 ^ 32) (hba : ch * bps / 8 < 2 ^ 16)
    (hlen : 36 + pcm.length < 2 ^ 32) :
    (create_wav_header pcm sr ch bps).length = 44 + pcm.length ∧
    (create_wav_header pcm sr ch bps).drop 44 = pcm ∧
    (create_wav_header pcm sr ch bps).take 4 = [0x52, 0x49, 0x46, 0x46] ∧
    fromBytesLE (((create_wav_header pcm sr ch bps).drop 4).take 4) = 36 + pcm.length ∧
    ((create_wav_header pcm sr ch bps).drop 8).take 4 = [0x57, 0x41, 0x56, 0x45] ∧
    ((create_wav_header pcm sr ch bps).drop 12).take 4 = [0x66, 0x6D, 0x74, 0x20] ∧
    fromBytesLE (((create_wav_header pcm sr ch bps).drop 16).take 4) = 16 ∧
    fromBytesLE (((create_wav_header pcm sr ch bps).drop 20).take 2) = 1 ∧
    fromBytesLE (((create_wav_header pcm sr ch bps).drop 22).take 2) = ch ∧
    fromBytesLE (((create_wav_header pcm sr ch bps).drop 24).take 4) = sr ∧
    fromBytesLE (((create_wav_header pcm sr ch bps).drop 28).take 4) = sr * ch * bps / 8 ∧
    fromBytesLE (((create_wav_header pcm sr ch bps).drop 32).take 2) = ch * bps / 8 ∧
    fromBytesLE (((create_wav_header pcm sr ch bps).drop 34).take 2) = bps ∧
    ((create_wav_header pcm sr ch bps).drop 36).take 4 = [0x64, 0x61, 0x74, 0x61] ∧
    fromBytesLE (((create_wav_header pcm sr ch bps).drop 40).take 4) = pcm.length := by
  have h32 : (256 : Nat) ^ 4 = 2 ^ 32 := by norm_num
  have h16 : (256 : Nat) ^ 2 = 2 ^ 16 := by norm_num
  have e4 : ((create_wav_header pcm sr ch bps).drop 4).take 4 =
      toBytesLE 4 (36 + pcm.length) := rfl
  have e22 : ((create_wav_header pcm sr ch bps).drop 22).take 2 = toBytesLE 2 ch := rfl
  have e24 : ((create_wav_header pcm sr ch bps).drop 24).take 4 = toBytesLE 4 sr := rfl
  have e28 : ((create_wav_header pcm sr ch bps).drop 28).take 4 =
      toBytesLE 4 (sr * ch * bps / 8) := rfl
  have e32 : ((create_wav_header pcm sr ch bps).drop 32).take 2 =
      toBytesLE 2 (ch * bps / 8) := rfl
  have e34 : ((create_wav_header pcm sr ch bps).drop 34).take 2 = toBytesLE 2 bps := rfl
  have e40 : ((create_wav_header pcm sr ch bps).drop 40).take 4 =
      toBytesLE 4 pcm.length := rfl
  refine ⟨?_, rfl, rfl, ?_, rfl, rfl, rfl, rfl, ?_, ?_, ?_, ?_, ?_, rfl, ?_⟩
  · simp [create_wav_header, toBytesLE]
    omega
  · rw [e4]
    exact fromBytesLE_toBytesLE 4 _ (by rw [h32]; exact hlen)
  · rw [e22]
    exact fromBytesLE_toBytesLE 2 _ (by rw [h16]; exact hch)
  · rw [e24]
    exact fromBytesLE_toBytesLE 4 _ (by rw [h32]; exact hsr)
  · rw [e28]
    exact fromBytesLE_toBytesLE 4 _ (by rw [h32]; exact hbr)
  · rw [e32]
    exact fromBytesLE_toBytesLE 2 _ (by rw [h16]; exact hba)
  · rw [e34]
    exact fromBytesLE_toBytesLE 2 _ (by rw [h16]; exact hbps)
  · rw [e40]
    refine fromBytesLE_toBytesLE 4 _ ?_
    rw [h32]
    omega

/- ===== codec validation, inbound relay, handshake ===== -/

/-- C9: convert_pcm_to_mp3 validates its input and never raises: a buffer
that is empty or shorter than 1000 bytes yields none rather than an
exception, and every produced result comes from a successful encoder run on
a large-enough buffer with at least 500 output bytes; each failure path
(buffer too small, short decoded audio, encoder exception or exit failure,
short encoded output) yields none. -/
theorem convert_pcm_to_mp3_validation (hp : Bool) (enc : List Nat → Enc)
    (pcm : List Nat) (sr : Nat) :
    (pcm.length < 1000 → convert_pcm_to_mp3 hp enc pcm sr = none) ∧
    (∀ mp3, convert_pcm_to_mp3 hp enc pcm sr = some mp3 →
      1000 ≤ pcm.length ∧ enc pcm = Enc.ok mp3 ∧ 500 ≤ mp3.length) := by
  constructor
  · intro h
    unfold convert_pcm_to_mp3
    rw [if_pos h]
  · intro mp3 h
    unfold convert_pcm_to_mp3 at h
    split at h
    · cases h
    · rename_i h1
      refine ⟨Nat.le_of_not_lt h1, ?_⟩
      split at h
      · split at h
        · cases h
        · split at h
          · cases h
          · cases h
          · rename_i b heq
            split at h
            · cases h
            · rename_i hlen
              obtain rfl : b = mp3 := by injection h
              exact ⟨heq, Nat.le_of_not_lt hlen⟩
      · split at h
        · cases h
        · cases h
        · rename_i b heq
          split at h
          · cases h
          · rename_i hlen
            obtain rfl : b = mp3 := by injection h
            exact ⟨heq, Nat.le_of_not_lt hlen⟩

/-- C6 counterexample: an upstream send that raises on the first audio
packet does not terminate the inbound loop; the next client message is still
processed and its packet forwarded, so the loop does not exit on a
stream-level forwarding failure. -/
theorem send_loop_survives_upstream_failure :
    send_to_gemini sendFailOn1 [frameA1, frameA2] = [Packet.audio [2]] := by
  decide

/-- C6 amended: the inbound loop of send_to_gemini terminates only when the
client message stream ends; every per-message exception, including an
upstream send failure, is caught, so processing distributes over the stream
and later messages are handled regardless of earlier failures, and a
malformed message is skipped without terminating the loop. -/
theorem send_loop_no_early_exit (sendOk : Packet → Bool) (fs gs : List Frame) :
    send_to_gemini sendOk (fs ++ gs) =
      send_to_gemini sendOk fs ++ send_to_gemini sendOk gs ∧
    send_to_gemini sendOk (Frame.malformed :: gs) = send_to_gemini sendOk gs := by
  constructor
  · simp [send_to_gemini]
  · simp [send_to_gemini, processFrame]

/-- C7: the configuration emitted at session establishment is identical for
any two valid JSON object handshakes: the setup value read from the client
is discarded in favour of the fixed policy configuration. -/
theorem handshake_noninterference (h1 h2 : JsonVal)
    (ho1 : h1.isObj = true) (ho2 : h2.isObj = true) :
    gemini_session_config h1 = gemini_session_config h2 := rfl

/- ===== witnesses: the claim theorems applied at concrete inputs ===== -/

/-- Witness for C1 at a one-fragment turn followed by turn completion. -/
theorem turn_signal_protocol_witness :
    countStart (turnMsgs false encRaises ([audioRespBig] ++ [completeResp])) = 1 ∧
    countTC (turnMsgs false encRaises ([audioRespBig] ++ [completeResp])) = 1 := by
  have h := turn_signal_protocol false encRaises [audioRespBig] completeResp
    (by decide) (by decide) (by decide)
  exact ⟨h.1, h.2.2.1⟩

/-- Witness for C2 at a four-byte buffer and the default parameters. -/
theorem create_wav_header_spec_witness :
    (create_wav_header wavPcm 24000 1 16).length = 44 + wavPcm.length :=
  (create_wav_header_spec wavPcm 24000 1 16 (by decide) (by decide) (by decide)
    (by decide) (by decide) (by decide)).1

/-- Witness for C3: after a completed turn the relay state is initial. -/
theorem turn_isolation_witness :
    (runReceive false encRaises initState ([audioRespSmall] ++ [completeResp])).1 =
      initState :=
  (turn_isolation false encRaises initState [audioRespSmall] completeResp []
    (by decide)).1

/-- Witness for C4 at a 200-byte turn. -/
theorem below_threshold_turn_witness :
    countAudio (turnMsgs false encRaises ([audioRespSmall] ++ [completeResp])) = 0 ∧
    countTC (turnMsgs false encRaises ([audioRespSmall] ++ [completeResp])) = 1 := by
  have h2 : respAudio audioRespSmall = smallBytes ++ [] := rfl
  have h3 : respAudio completeResp = [] := rfl
  have hta : turnAudio ([audioRespSmall] ++ [completeResp]) = smallBytes := by
    show respAudio audioRespSmall ++ (respAudio completeResp ++ []) = smallBytes
    rw [h2, h3]
    simp
  exact below_threshold_turn false encRaises [audioRespSmall] completeResp
    (by decide) (by decide)
    (by rw [hta]; norm_num [smallBytes])
    (by rw [hta]; norm_num [smallBytes])

/-- Witness for C5 at a 4800-byte turn. -/
theorem conversion_failure_fallback_witness :
    ∃ pre, (∀ m ∈ pre, isAudioMsg m = false ∧ isTC m = false) ∧
      (∀ mp3, convert_pcm_to_mp3 false encRaises
          (turnAudio ([audioRespBig] ++ [completeResp])) 24000 = some mp3 →
        turnMsgs false encRaises ([audioRespBig] ++ [completeResp]) =
          pre ++ [ClientMsg.audio mp3 none, ClientMsg.turnComplete]) ∧
      (convert_pcm_to_mp3 false encRaises
          (turnAudio ([audioRespBig] ++ [completeResp])) 24000 = none →
        turnMsgs false encRaises ([audioRespBig] ++ [completeResp]) =
          pre ++ [ClientMsg.audio
              (create_wav_header (turnAudio ([audioRespBig] ++ [completeResp])) 24000 1 16)
              (some wavFormat), ClientMsg.turnComplete]) := by
  have h2 : respAudio audioRespBig = bigBytes ++ [] := rfl
  have h3 : respAudio completeResp = [] := rfl
  have hta : turnAudio ([audioRespBig] ++ [completeResp]) = bigBytes := by
    show respAudio audioRespBig ++ (respAudio completeResp ++ []) = bigBytes
    rw [h2, h3]
    simp
  exact conversion_failure_fallback false encRaises [audioRespBig] completeResp
    (by decide) (by decide) (by rw [hta]; norm_num [bigBytes])

/-- Witness for C7 at two distinct handshake objects. -/
theorem handshake_noninterference_witness :
    gemini_session_config (JsonVal.obj []) =
      gemini_session_config (JsonVal.obj [(setupKey, JsonVal.boolean true)]) :=
  handshake_noninterference (JsonVal.obj [])
    (JsonVal.obj [(setupKey, JsonVal.boolean true)]) rfl rfl

/-- Witness for C8 at a stream that ends after one audio fragment. -/
theorem midturn_upstream_end_witness :
    countAudio (runReceive false encRaises initState [audioRespSmall]).2 = 0 ∧
    countTC (runReceive false encRaises initState [audioRespSmall]).2 = 0 :=
  midturn_upstream_end false encRaises initState [audioRespSmall] (by decide)

/-- Witness for C9 at a 500-byte buffer. -/
theorem convert_pcm_to_mp3_validation_witness :
    convert_pcm_to_mp3 true encRaises (List.replicate 500 0) 24000 = none :=
  (convert_pcm_to_mp3_validation true encRaises (List.replicate 500 0) 24000).1
    (by norm_num [List.length_replicate])

/-- Witness for C10 at a single part carrying both text and inline data. -/
theorem text_part_with_inline_data_witness :
    partsAudio [bothPart] = [] ∧
    turnMsgs false encRaises [⟨some ⟨some [bothPart], true⟩⟩] =
      ClientMsg.audioStart ::
        ((partTexts [bothPart]).map ClientMsg.text ++ [ClientMsg.turnComplete]) :=
  text_part_with_inline_data false encRaises [bothPart] (by decide) (by decide)

end TravelBuddy
